import Mathlib

/-!
Shallow embedding of the household-object cataloger (Python sources
`catalog_manage.py`, `catalog_interface.py`, `data_storage.py`).

The catalog is a nested JSON-like dictionary.  A container node has three
relevant keys, each of which may be absent in a malformed tree:
  "name"       : a string,
  "objects"    : a list of object dictionaries ({"name": ..., "category": ...}),
  "containers" : a list of child container nodes.
We model an absent key as `Option.none`.  The `containers` key is read by
every embedded operation through `data.get("containers", [])`, and no
embedded operation writes to it, so a node with a missing `containers` key
behaves exactly like one with an empty list; we therefore model that field
as a plain `List`.  The `objects` key must stay an `Option`: in
`catalog_interface.add_object` the expression
`container.get("objects", []).append(new_object)` appends to a *fresh*
temporary list when the key is absent, which is observably different from
appending to a present empty list.

Python dictionaries are mutable and are passed by reference, so the
functions that mutate the tree (`delete_object`, `modify_object`, the
append in `add_object`) are embedded as explicit state passing: they
return the result together with the new tree.  The read-only searches are
also given in state-passing form (`get_object_st`, `get_object_info_st`,
`get_container_by_name_st`), translated statement by statement with the
container lists rebuilt from the states returned by the recursive calls,
in order to state the frame property that a search leaves the tree
untouched.
-/

namespace Cataloger

/-- An object dictionary `{"name": ..., "category": ...}`; either key may
be absent in malformed data. -/
structure Obj where
  name : Option String
  category : Option String
deriving DecidableEq, Repr

/-- A container node of the catalog tree. -/
inductive Node : Type where
  | mk (name : Option String) (objects : Option (List Obj)) (containers : List Node)
deriving Repr

def Node.name : Node → Option String
  | .mk n _ _ => n

def Node.objects : Node → Option (List Obj)
  | .mk _ o _ => o

def Node.containers : Node → List Node
  | .mk _ _ c => c

/-- Python `d[k]`: returns the value, raising `KeyError(k)` when absent.
Modelled in `Except`, the error carrying the missing key. -/
def getKey (v : Option α) (key : String) : Except String α :=
  match v with
  | some x => .ok x
  | none => .error ("KeyError: " ++ key)

/-- The match test `object.get("name") == object_name` of the source:
`None == s` is `False` in Python, so an object matches iff its `"name"`
key is present and equal. -/
def objMatches (o : Obj) (objectName : String) : Bool :=
  o.name == some objectName

mutual

/-- `catalog_manage.get_object` (lines 70–95), translated line by line.
Scans `data.get("objects", [])` for the first object whose name matches,
then recurses into `data.get("containers", [])`, returning the first
non-`None` recursive result.  (The Python test `if result:` is truthiness
on a dict; a returned object always contains a `"name"` key and hence is a
non-empty, truthy dict, so truthiness coincides with `is not None`.) -/
def get_object (data : Node) (object_name : String) : Option Obj :=
  match data with
  | .mk _ objs cs =>
    match (objs.getD []).find? (fun o => objMatches o object_name) with
    | some o => some o
    | none => get_object_loop cs object_name

/-- The `for container in data.get("containers", [])` loop of `get_object`. -/
def get_object_loop (cs : List Node) (object_name : String) : Option Obj :=
  match cs with
  | [] => none
  | c :: rest =>
    match get_object c object_name with
    | some r => some r
    | none => get_object_loop rest object_name

end

mutual

/-- `catalog_manage.get_object_info` (lines 4–31), translated line by line.
On a match in the node's own objects it evaluates
`[object["name"], object["category"], data["name"]]` — the last two are
*direct* subscripts that raise `KeyError` when the key is absent
(`object["name"]` is safe: a match guarantees the key).  In the container
loop, a non-empty recursive result is returned as `result + [data["name"]]`,
where `data["name"]` again may raise; exceptions from the recursive call
propagate.  An empty list is falsy, so `if result:` is `result ≠ []`. -/
def get_object_info (data : Node) (object_to_search : String) : Except String (List String) :=
  match data with
  | .mk nm objs cs =>
    match (objs.getD []).find? (fun o => objMatches o object_to_search) with
    | some o =>
      match getKey o.name "name" with
      | .error e => .error e
      | .ok n =>
        match getKey o.category "category" with
        | .error e => .error e
        | .ok cat =>
          match getKey nm "name" with
          | .error e => .error e
          | .ok dn => .ok [n, cat, dn]
    | none =>
      match get_object_info_loop cs object_to_search with
      | .error e => .error e
      | .ok [] => .ok []
      | .ok r =>
        match getKey nm "name" with
        | .error e => .error e
        | .ok dn => .ok (r ++ [dn])

/-- The container loop of `get_object_info`: returns the first non-empty
recursive result (before the parent appends its own name), `[]` when every
child reports `[]`, and propagates a raised exception. -/
def get_object_info_loop (cs : List Node) (object_to_search : String) : Except String (List String) :=
  match cs with
  | [] => .ok []
  | c :: rest =>
    match get_object_info c object_to_search with
    | .error e => .error e
    | .ok [] => get_object_info_loop rest object_to_search
    | .ok r => .ok r

end

mutual

/-- `catalog_manage.delete_object` (lines 35–66) in state-passing form.
`objects_list = data.get("objects", [])` aliases the node's list exactly
when the key is present (a match therefore implies the key is present, so
reinstalling the shrunk list under `some` is faithful).  On the first
object whose `"name"` matches, `objects_list.remove(object)` deletes the
first list element *equal* to it — which is that very element, since any
earlier equal dict would have equal `"name"` and would have matched first;
Python's `list.remove` is `List.erase`. -/
def delete_object (data : Node) (object_name : String) : Bool × Node :=
  match data with
  | .mk nm objs cs =>
    match (objs.getD []).find? (fun o => objMatches o object_name) with
    | some o => (true, .mk nm (some ((objs.getD []).erase o)) cs)
    | none =>
      let (b, cs') := delete_object_loop cs object_name
      (b, .mk nm objs cs')

/-- The container loop of `delete_object`: each child is replaced by the
state the recursive call returns; the loop stops at the first child that
reports a deletion. -/
def delete_object_loop (cs : List Node) (object_name : String) : Bool × List Node :=
  match cs with
  | [] => (false, [])
  | c :: rest =>
    let (b, c') := delete_object c object_name
    if b then (true, c' :: rest)
    else
      let (b', rest') := delete_object_loop rest object_name
      (b', c' :: rest')

end

/-- The two conditional field writes of `catalog_manage.modify_object`
(lines 99–126): `if new_object_name:` / `if new_category_name:` are
truthiness tests on strings, i.e. non-emptiness; a blank argument leaves
the attribute untouched. -/
def applyModification (o : Obj) (new_object_name new_category_name : String) : Obj :=
  let o₁ := if new_object_name ≠ "" then { o with name := some new_object_name } else o
  if new_category_name ≠ "" then { o₁ with category := some new_category_name } else o₁

mutual

/-- `catalog_manage.modify_object` (lines 99–126) in state-passing form.
The source obtains a live reference via `get_object` and writes the two
fields through it; here the locate-and-write is rendered as one traversal
in exactly `get_object`'s order, replacing the first matching object by
its modified copy.  `modify_object_agrees_with_get_object` below proves
the rendering consistent with `get_object`. -/
def modify_object (data : Node) (object_name : String)
    (new_object_name new_category_name : String) : Bool × Node :=
  match data with
  | .mk nm objs cs =>
    match (objs.getD []).find? (fun o => objMatches o object_name) with
    | some o =>
      (true, .mk nm (some ((objs.getD []).replace o (applyModification o new_object_name new_category_name))) cs)
    | none =>
      let (b, cs') := modify_object_loop cs object_name new_object_name new_category_name
      (b, .mk nm objs cs')

/-- The container part of `modify_object`'s locate-and-write traversal. -/
def modify_object_loop (cs : List Node) (object_name : String)
    (new_object_name new_category_name : String) : Bool × List Node :=
  match cs with
  | [] => (false, [])
  | c :: rest =>
    let (b, c') := modify_object c object_name new_object_name new_category_name
    if b then (true, c' :: rest)
    else
      let (b', rest') := modify_object_loop rest object_name new_object_name new_category_name
      (b', c' :: rest')

end

mutual

/-- `catalog_manage.get_container_by_name` (lines 130–150), translated
line by line: the current node is checked first (`data.get("name") ==
container_name`, so the root itself is eligible and a nameless node never
matches), then the children in list order.  `if result:` is truthiness on
a dict that always carries a `"name"` key, hence `is not None`. -/
def get_container_by_name (data : Node) (container_name : String) : Option Node :=
  match data with
  | .mk nm objs cs =>
    if nm == some container_name then some (.mk nm objs cs)
    else get_container_by_name_loop cs container_name

/-- The container loop of `get_container_by_name`. -/
def get_container_by_name_loop (cs : List Node) (container_name : String) : Option Node :=
  match cs with
  | [] => none
  | c :: rest =>
    match get_container_by_name c container_name with
    | some r => some r
    | none => get_container_by_name_loop rest container_name

end

/-- The single mutating statement of `catalog_interface.add_object`
(lines 178–199): `container.get("objects", []).append(new_object)`.
When the `"objects"` key is present, `.get` returns the live list and the
append lands in the tree; when it is absent, `.get` returns a *fresh*
empty list, the append mutates that temporary, and the node is left
unchanged — the new object is silently lost. -/
def appendObject (container : Node) (new_object : Obj) : Node :=
  match container with
  | .mk nm (some l) cs => .mk nm (some (l ++ [new_object])) cs
  | .mk nm none cs => .mk nm none cs

mutual

/-- `catalog_interface.add_object` (lines 178–199) in state-passing form:
the container returned by `get_container_by_name` is a live reference into
the tree, so the append through it is rendered as replacing the first
container found in `get_container_by_name`'s order by `appendObject` of
it.  Returns `none` (tree unchanged) when no container matches — the
interactive wrapper `get_container_for_adding` loops until a match. -/
def add_object (data : Node) (container_name : String) (new_object : Obj) : Option Node :=
  match data with
  | .mk nm objs cs =>
    if nm == some container_name then some (appendObject (.mk nm objs cs) new_object)
    else
      match add_object_loop cs container_name new_object with
      | some cs' => some (.mk nm objs cs')
      | none => none

/-- The child traversal of `add_object`'s locate-and-append. -/
def add_object_loop (cs : List Node) (container_name : String) (new_object : Obj) : Option (List Node) :=
  match cs with
  | [] => none
  | c :: rest =>
    match add_object c container_name new_object with
    | some c' => some (c' :: rest)
    | none =>
      match add_object_loop rest container_name new_object with
      | some rest' => some (c :: rest')
      | none => none

end

mutual

/-- `get_object` translated with the tree state threaded through every
statement (the container loop rebuilds the child list from the states the
recursive calls return).  The source contains no mutating statement, and
the frame theorem for claim C10 proves the returned state is the input. -/
def get_object_st (data : Node) (object_name : String) : Option Obj × Node :=
  match data with
  | .mk nm objs cs =>
    match (objs.getD []).find? (fun o => objMatches o object_name) with
    | some o => (some o, .mk nm objs cs)
    | none =>
      let (r, cs') := get_object_loop_st cs object_name
      (r, .mk nm objs cs')

/-- The container loop of `get_object`, state threaded. -/
def get_object_loop_st (cs : List Node) (object_name : String) : Option Obj × List Node :=
  match cs with
  | [] => (none, [])
  | c :: rest =>
    let (r, c') := get_object_st c object_name
    match r with
    | some o => (some o, c' :: rest)
    | none =>
      let (r', rest') := get_object_loop_st rest object_name
      (r', c' :: rest')

end

mutual

/-- `get_object_info` translated with the tree state threaded (the result
also carries the state reached when an exception is raised). -/
def get_object_info_st (data : Node) (object_to_search : String) :
    Except String (List String) × Node :=
  match data with
  | .mk nm objs cs =>
    match (objs.getD []).find? (fun o => objMatches o object_to_search) with
    | some o =>
      (match getKey o.name "name" with
       | .error e => .error e
       | .ok n =>
         match getKey o.category "category" with
         | .error e => .error e
         | .ok cat =>
           match getKey nm "name" with
           | .error e => .error e
           | .ok dn => .ok [n, cat, dn], .mk nm objs cs)
    | none =>
      let (r, cs') := get_object_info_loop_st cs object_to_search
      match r with
      | .error e => (.error e, .mk nm objs cs')
      | .ok [] => (.ok [], .mk nm objs cs')
      | .ok l =>
        match getKey nm "name" with
        | .error e => (.error e, .mk nm objs cs')
        | .ok dn => (.ok (l ++ [dn]), .mk nm objs cs')

/-- The container loop of `get_object_info`, state threaded. -/
def get_object_info_loop_st (cs : List Node) (object_to_search : String) :
    Except String (List String) × List Node :=
  match cs with
  | [] => (.ok [], [])
  | c :: rest =>
    let (r, c') := get_object_info_st c object_to_search
    match r with
    | .error e => (.error e, c' :: rest)
    | .ok [] =>
      let (r', rest') := get_object_info_loop_st rest object_to_search
      (r', c' :: rest')
    | .ok l => (.ok l, c' :: rest)

end

mutual

/-- `get_container_by_name` translated with the tree state threaded. -/
def get_container_by_name_st (data : Node) (container_name : String) : Option Node × Node :=
  match data with
  | .mk nm objs cs =>
    if nm == some container_name then (some (.mk nm objs cs), .mk nm objs cs)
    else
      let (r, cs') := get_container_by_name_loop_st cs container_name
      (r, .mk nm objs cs')

/-- The container loop of `get_container_by_name`, state threaded. -/
def get_container_by_name_loop_st (cs : List Node) (container_name : String) :
    Option Node × List Node :=
  match cs with
  | [] => (none, [])
  | c :: rest =>
    let (r, c') := get_container_by_name_st c container_name
    match r with
    | some x => (some x, c' :: rest)
    | none =>
      let (r', rest') := get_container_by_name_loop_st rest container_name
      (r', c' :: rest')

end

/-!  `data_storage.py`.  The file system is external, so the body of each
`try` block is modelled by its possible outcomes: the exact exception
classes the source names in its `except` clauses, plus success.  The
diagnostic `print` calls are modelled by returning the printed lines. -/

/-- Outcome of `open(file_name)` + `json.load` in `load_json_file`:
success with the parsed tree, `FileNotFoundError`, or
`json.JSONDecodeError`. -/
inductive ReadOutcome : Type where
  | success (content : Node)
  | fileNotFound
  | jsonDecodeError (error : String)
deriving Repr

/-- `data_storage.load_json_file` (lines 5–28): returns the parsed content
on success; on `FileNotFoundError` or `JSONDecodeError` prints a
diagnostic and returns the empty dictionary `{}` (a node with every key
absent).  Both named exceptions are caught, so the function is total on
these outcomes — nothing propagates to the caller. -/
def load_json_file (file_name : String) (outcome : ReadOutcome) : Node × List String :=
  match outcome with
  | .success content => (content, [])
  | .fileNotFound =>
    (.mk none none [], ["Errore: il file '" ++ file_name ++ "' non è stato trovato."])
  | .jsonDecodeError error =>
    (.mk none none [],
     ["Errore di decodifica JSON nel file '" ++ file_name ++ "': " ++ error])

/-- Outcome of `open(file_name, "w")` + `json.dump` in `save_json_file`:
success, `OSError` (I/O failure), or `TypeError` (unserialisable data). -/
inductive WriteOutcome : Type where
  | success
  | osError (error : String)
  | typeError (error : String)
deriving Repr

/-- `data_storage.save_json_file` (lines 31–49): on success returns
silently; on `OSError` or `TypeError` prints a diagnostic and returns.
Both named exceptions are caught, so nothing propagates to the caller. -/
def save_json_file (outcome : WriteOutcome) : List String :=
  match outcome with
  | .success => []
  | .osError error => ["Errore durante il salvataggio del file JSON: " ++ error]
  | .typeError error => ["Errore durante il salvataggio del file JSON: " ++ error]

/-!  Specification-side reference definitions (written from the spec's
words, to be related to the translated operations). -/

mutual

/-- All objects of a tree in the spec's traversal order: depth first,
a node's own objects before its containers, lists in order. -/
def allObjectsDF (t : Node) : List Obj :=
  match t with
  | .mk _ objs cs => objs.getD [] ++ allObjectsDFList cs

def allObjectsDFList (cs : List Node) : List Obj :=
  match cs with
  | [] => []
  | c :: rest => allObjectsDF c ++ allObjectsDFList rest

end

mutual

/-- All containers of a tree in the spec's traversal order: a node itself
before its children, depth first, lists in order. -/
def allContainersDF (t : Node) : List Node :=
  match t with
  | .mk nm objs cs => .mk nm objs cs :: allContainersDFList cs

def allContainersDFList (cs : List Node) : List Node :=
  match cs with
  | [] => []
  | c :: rest => allContainersDF c ++ allContainersDFList rest

end

/-- Spec-side: the tree contains an object named `n` (in its own objects
list or in a descendant's). -/
def hasObjectNamed (t : Node) (n : String) : Bool :=
  (allObjectsDF t).any (fun o => o.name == some n)

/-- Spec-side: apply `f` to the first element satisfying `p`, leaving the
rest of the list untouched (how an in-place write through a reference
obtained by a first-match search acts on the flattened object sequence). -/
def updateFirstP (p : α → Bool) (f : α → α) : List α → List α
  | [] => []
  | a :: l => if p a then f a :: l else a :: updateFirstP p f l

mutual

/-- Spec-side (claim C3): depth-first, objects-before-containers search
returning the first matching object together with the names of its
ancestor containers from the direct parent up to and including the root,
in child-to-root order.  A nameless ancestor is recorded as `none`. -/
def findWithPathSpec (t : Node) (n : String) : Option (Obj × List (Option String)) :=
  match t with
  | .mk nm objs cs =>
    match (objs.getD []).find? (fun o => o.name == some n) with
    | some o => some (o, [nm])
    | none =>
      match findWithPathSpecList cs n with
      | some (o, p) => some (o, p ++ [nm])
      | none => none

def findWithPathSpecList (cs : List Node) (n : String) : Option (Obj × List (Option String)) :=
  match cs with
  | [] => none
  | c :: rest =>
    match findWithPathSpec c n with
    | some r => some r
    | none => findWithPathSpecList rest n

end

/-- Spec-side: what `get_object_info` should print for a search result of
`findWithPathSpec`: `[]` when nothing was found, otherwise the object's
name and category followed by the ancestor names (child to root).  The
`getD ""` defaults are never exercised on well-formed trees. -/
def renderInfo : Option (Obj × List (Option String)) → List String
  | none => []
  | some (o, p) => o.name.getD "" :: o.category.getD "" :: p.map (fun x => x.getD "")

mutual

/-- Well-formedness: every node carries a `"name"` and every object
carries both a `"name"` and a `"category"` — the shape the program's own
data file has.  Claim C6 turns on what happens outside this set. -/
def WFNode (t : Node) : Bool :=
  match t with
  | .mk nm objs cs =>
    nm.isSome && (objs.getD []).all (fun o => o.name.isSome && o.category.isSome)
      && WFList cs

def WFList (cs : List Node) : Bool :=
  match cs with
  | [] => true
  | c :: rest => WFNode c && WFList rest

end

/-!  Concrete trees used in the claims' scenarios. -/

/-- The duplicate-name scenario of claim C1: container `A` (listed first)
and container `B` (listed second) each hold an object named `"bulb"`. -/
def bulbA : Obj := ⟨some "bulb", some "lightA"⟩

def bulbB : Obj := ⟨some "bulb", some "lightB"⟩

def contA : Node := .mk (some "A") (some [bulbA]) []

def contB : Node := .mk (some "B") (some [bulbB]) []

def rootAB : Node := .mk (some "house") (some []) [contA, contB]

/-- The path scenario of claim C3: `"hammer"` at house > garage > shelf. -/
def shelfNode : Node := .mk (some "shelf") (some [⟨some "hammer", some "tool"⟩]) []

def garageNode : Node := .mk (some "garage") (some []) [shelfNode]

def houseNode : Node := .mk (some "house") (some []) [garageNode]

/-- Claim C6's malformed input: a container without a `"name"` key holding
the object `"bulb"`. -/
def namelessNode : Node := .mk none (some [⟨some "bulb", some "light"⟩]) []

/-- Claim C7's failing input: a container named `"box"` whose raw node has
no `"objects"` key. -/
def boxNoObjects : Node := .mk (some "box") none []

/-!  Generic list lemmas used throughout. -/

theorem find?_isSome_eq_any (p : α → Bool) (l : List α) :
    (l.find? p).isSome = l.any p := by
  induction l with
  | nil => rfl
  | cons a l ih =>
    rw [List.find?_cons, List.any_cons]
    cases h : p a <;> simp [h, ih]

theorem erase_of_find? [DecidableEq α] {p : α → Bool} {l : List α} {o : α}
    (h : l.find? p = some o) : l.erase o = l.eraseP p := by
  induction l with
  | nil => simp at h
  | cons a l ih =>
    rw [List.find?_cons] at h
    cases hpa : p a with
    | true =>
      simp [hpa] at h
      subst h
      simp [List.erase_cons, List.eraseP_cons, hpa]
    | false =>
      simp [hpa] at h
      have hpo : p o = true := List.find?_some h
      have hne : a ≠ o := fun he => by rw [he, hpo] at hpa; exact Bool.noConfusion hpa
      simp [List.erase_cons, List.eraseP_cons, hpa, hne, ih h]

theorem replace_of_find? [DecidableEq α] {p : α → Bool} {l : List α} {o : α}
    (f : α → α) (h : l.find? p = some o) : l.replace o (f o) = updateFirstP p f l := by
  induction l with
  | nil => simp at h
  | cons a l ih =>
    rw [List.find?_cons] at h
    cases hpa : p a with
    | true =>
      simp [hpa] at h
      subst h
      simp [List.replace_cons, updateFirstP, hpa]
    | false =>
      simp [hpa] at h
      have hpo : p o = true := List.find?_some h
      have hne : (o == a) = false := by
        cases hoa : o == a with
        | false => rfl
        | true =>
          have : o = a := by simpa using hoa
          rw [← this, hpo] at hpa; exact Bool.noConfusion hpa
      simp [List.replace_cons, updateFirstP, hpa, hne, ih h]

theorem replace_self [DecidableEq α] (l : List α) (o : α) : l.replace o o = l := by
  induction l with
  | nil => rfl
  | cons a l ih =>
    rw [List.replace_cons]
    cases h : o == a with
    | true =>
      have : o = a := by simpa using h
      simp [this]
    | false => simp [ih]

theorem updateFirstP_append (p : α → Bool) (f : α → α) (l₁ l₂ : List α) :
    updateFirstP p f (l₁ ++ l₂) =
      if l₁.any p then updateFirstP p f l₁ ++ l₂ else l₁ ++ updateFirstP p f l₂ := by
  induction l₁ with
  | nil => simp [updateFirstP]
  | cons a l ih =>
    cases h : p a with
    | true => simp [updateFirstP, h]
    | false =>
      simp only [List.cons_append, updateFirstP, h, if_false, Bool.false_eq_true,
        List.append_eq, ih, List.any_cons, Bool.false_or]
      by_cases hl : l.any p = true
      · simp [hl]
      · simp [hl]

theorem updateFirstP_of_not_any (p : α → Bool) (f : α → α) (l : List α)
    (h : l.any p = false) : updateFirstP p f l = l := by
  induction l with
  | nil => rfl
  | cons a l ih =>
    rw [List.any_cons, Bool.or_eq_false_iff] at h
    simp [updateFirstP, h.1, ih h.2]

theorem find?_updateFirstP {p : α → Bool} {l : List α} {o : α} (f : α → α)
    (h : l.find? p = some o) (hf : p (f o) = true) :
    (updateFirstP p f l).find? p = some (f o) := by
  induction l with
  | nil => simp at h
  | cons a l ih =>
    rw [List.find?_cons] at h
    cases hpa : p a with
    | true =>
      simp [hpa] at h
      subst h
      simp [updateFirstP, hpa, List.find?_cons, hf]
    | false =>
      simp [hpa] at h
      simp [updateFirstP, hpa, List.find?_cons, ih h]

theorem eraseP_of_not_any (p : α → Bool) (l : List α) (h : l.any p = false) :
    l.eraseP p = l := by
  induction l with
  | nil => rfl
  | cons a l ih =>
    rw [List.any_cons, Bool.or_eq_false_iff] at h
    simp [List.eraseP_cons, h.1, ih h.2]

theorem any_eraseP_iff_two_le_countP (p : α → Bool) (l : List α) :
    (l.eraseP p).any p = true ↔ 2 ≤ l.countP p := by
  induction l with
  | nil => simp
  | cons a l ih =>
    cases h : p a with
    | true =>
      rw [List.eraseP_cons, h, cond_true, List.countP_cons_of_pos _ _ h]
      constructor
      · intro ha
        have : 0 < l.countP p := by
          rw [List.countP_pos_iff]
          rcases List.any_eq_true.mp ha with ⟨x, hx, hpx⟩
          exact ⟨x, hx, hpx⟩
        omega
      · intro h2
        have : 0 < l.countP p := by omega
        rw [List.countP_pos_iff] at this
        rcases this with ⟨x, hx, hpx⟩
        exact List.any_eq_true.mpr ⟨x, hx, hpx⟩
    | false =>
      rw [List.eraseP_cons, h, cond_false, List.countP_cons_of_neg _ _ (by simp [h]),
        List.any_cons, h, Bool.false_or]
      exact ih

/-!  Characterisation of the translated operations against the spec-side
traversal (shared lemmas). -/

mutual

/-- `get_object` returns the first match of the flattened depth-first,
objects-before-containers traversal. -/
theorem get_object_eq_find (t : Node) (n : String) :
    get_object t n = (allObjectsDF t).find? (fun o => objMatches o n) := by
  match t with
  | .mk nm objs cs =>
    rw [get_object, allObjectsDF, List.find?_append]
    cases h : (objs.getD []).find? (fun o => objMatches o n) with
    | some o => simp [Option.or]
    | none => simp [Option.or, get_object_loop_eq_find cs n]

theorem get_object_loop_eq_find (cs : List Node) (n : String) :
    get_object_loop cs n = (allObjectsDFList cs).find? (fun o => objMatches o n) := by
  match cs with
  | [] => rw [get_object_loop, allObjectsDFList]; rfl
  | c :: rest =>
    rw [get_object_loop, allObjectsDFList, List.find?_append, get_object_eq_find c n]
    cases h : (allObjectsDF c).find? (fun o => objMatches o n) with
    | some o => simp [Option.or]
    | none => simp [Option.or, get_object_loop_eq_find rest n]

end

mutual

/-- `get_container_by_name` returns the first match of the flattened
depth-first, node-before-children traversal. -/
theorem get_container_eq_find (t : Node) (n : String) :
    get_container_by_name t n = (allContainersDF t).find? (fun d => d.name == some n) := by
  match t with
  | .mk nm objs cs =>
    rw [get_container_by_name, allContainersDF, List.find?_cons]
    cases h : nm == some n with
    | true => simp [Node.name, h]
    | false => simp [Node.name, h, get_container_loop_eq_find cs n]

theorem get_container_loop_eq_find (cs : List Node) (n : String) :
    get_container_by_name_loop cs n
      = (allContainersDFList cs).find? (fun d => d.name == some n) := by
  match cs with
  | [] => rw [get_container_by_name_loop, allContainersDFList]; rfl
  | c :: rest =>
    rw [get_container_by_name_loop, allContainersDFList, List.find?_append,
      get_container_eq_find c n]
    cases h : (allContainersDF c).find? (fun d => d.name == some n) with
    | some o => simp [Option.or]
    | none => simp [Option.or, get_container_loop_eq_find rest n]

end

mutual

/-- The effect of `delete_object` on the flattened traversal: it reports
whether a match exists, and the surviving objects are exactly the original
sequence with the first match erased. -/
theorem delete_object_flatten (t : Node) (n : String) :
    (delete_object t n).1 = (allObjectsDF t).any (fun o => objMatches o n)
      ∧ allObjectsDF (delete_object t n).2
          = (allObjectsDF t).eraseP (fun o => objMatches o n) := by
  match t with
  | .mk nm objs cs =>
    rw [delete_object]
    cases h : (objs.getD []).find? (fun o => objMatches o n) with
    | some o =>
      have hany : (objs.getD []).any (fun o => objMatches o n) = true := by
        rw [← find?_isSome_eq_any, h]; rfl
      constructor
      · rw [allObjectsDF, List.any_append, hany]; rfl
      · rw [allObjectsDF, allObjectsDF, List.eraseP_append, if_pos hany,
          erase_of_find? h]
        rfl
    | none =>
      have hany : (objs.getD []).any (fun o => objMatches o n) = false := by
        rw [← find?_isSome_eq_any, h]; rfl
      obtain ⟨ih1, ih2⟩ := delete_object_loop_flatten cs n
      constructor
      · rw [allObjectsDF, List.any_append, hany, Bool.false_or, ← ih1]
      · rw [allObjectsDF, allObjectsDF, List.eraseP_append, if_neg (by rw [hany]; simp),
          ← ih2]

theorem delete_object_loop_flatten (cs : List Node) (n : String) :
    (delete_object_loop cs n).1 = (allObjectsDFList cs).any (fun o => objMatches o n)
      ∧ allObjectsDFList (delete_object_loop cs n).2
          = (allObjectsDFList cs).eraseP (fun o => objMatches o n) := by
  match cs with
  | [] => exact ⟨rfl, rfl⟩
  | c :: rest =>
    obtain ⟨ihc1, ihc2⟩ := delete_object_flatten c n
    obtain ⟨ihr1, ihr2⟩ := delete_object_loop_flatten rest n
    rcases hdc : delete_object c n with ⟨b, c'⟩
    rcases hdr : delete_object_loop rest n with ⟨b', rest'⟩
    rw [hdc] at ihc1 ihc2
    rw [hdr] at ihr1 ihr2
    cases b with
    | true =>
      have hany : (allObjectsDF c).any (fun o => objMatches o n) = true := ihc1.symm
      constructor
      · simp [delete_object_loop, hdc, allObjectsDFList, List.any_append, hany]
      · simp only [delete_object_loop, hdc, if_true, allObjectsDFList, List.eraseP_append,
          hany, if_pos, ihc2]
    | false =>
      have hany : (allObjectsDF c).any (fun o => objMatches o n) = false := ihc1.symm
      have hc2 : allObjectsDF c' = allObjectsDF c := by
        rw [ihc2, eraseP_of_not_any _ _ hany]
      constructor
      · simp [delete_object_loop, hdc, hdr, allObjectsDFList, List.any_append, hany, ihr1]
      · simp only [delete_object_loop, hdc, Bool.false_eq_true, if_false, hdr,
          allObjectsDFList, List.eraseP_append, hany, Bool.false_eq_true, if_false, hc2, ihr2]

end

theorem applyModification_name (o : Obj) (nn nc : String) :
    (applyModification o nn nc).name = if nn = "" then o.name else some nn := by
  by_cases h1 : nn = "" <;> by_cases h2 : nc = "" <;> simp [applyModification, h1, h2]

theorem applyModification_category (o : Obj) (nn nc : String) :
    (applyModification o nn nc).category = if nc = "" then o.category else some nc := by
  by_cases h1 : nn = "" <;> by_cases h2 : nc = "" <;> simp [applyModification, h1, h2]

theorem applyModification_blank (o : Obj) : applyModification o "" "" = o := by
  simp [applyModification]

mutual

/-- The effect of `modify_object` on the flattened traversal: it reports
whether a match exists, and the object sequence is the original one with
the first match rewritten by `applyModification`. -/
theorem modify_object_flatten (t : Node) (n nn nc : String) :
    (modify_object t n nn nc).1 = (allObjectsDF t).any (fun o => objMatches o n)
      ∧ allObjectsDF (modify_object t n nn nc).2
          = updateFirstP (fun o => objMatches o n) (fun o => applyModification o nn nc)
              (allObjectsDF t) := by
  match t with
  | .mk nm objs cs =>
    rw [modify_object]
    cases h : (objs.getD []).find? (fun o => objMatches o n) with
    | some o =>
      have hany : (objs.getD []).any (fun o => objMatches o n) = true := by
        rw [← find?_isSome_eq_any, h]; rfl
      constructor
      · rw [allObjectsDF, List.any_append, hany]; rfl
      · have hrep := replace_of_find? (p := fun o => objMatches o n)
          (fun o => applyModification o nn nc) h
        simp only [] at hrep
        rw [allObjectsDF, allObjectsDF, updateFirstP_append, if_pos hany, ← hrep]
        rfl
    | none =>
      have hany : (objs.getD []).any (fun o => objMatches o n) = false := by
        rw [← find?_isSome_eq_any, h]; rfl
      obtain ⟨ih1, ih2⟩ := modify_object_loop_flatten cs n nn nc
      constructor
      · rw [allObjectsDF, List.any_append, hany, Bool.false_or, ← ih1]
      · rw [allObjectsDF, allObjectsDF, updateFirstP_append, if_neg (by rw [hany]; simp),
          ← ih2]

theorem modify_object_loop_flatten (cs : List Node) (n nn nc : String) :
    (modify_object_loop cs n nn nc).1 = (allObjectsDFList cs).any (fun o => objMatches o n)
      ∧ allObjectsDFList (modify_object_loop cs n nn nc).2
          = updateFirstP (fun o => objMatches o n) (fun o => applyModification o nn nc)
              (allObjectsDFList cs) := by
  match cs with
  | [] => exact ⟨rfl, rfl⟩
  | c :: rest =>
    obtain ⟨ihc1, ihc2⟩ := modify_object_flatten c n nn nc
    obtain ⟨ihr1, ihr2⟩ := modify_object_loop_flatten rest n nn nc
    rcases hdc : modify_object c n nn nc with ⟨b, c'⟩
    rcases hdr : modify_object_loop rest n nn nc with ⟨b', rest'⟩
    rw [hdc] at ihc1 ihc2
    rw [hdr] at ihr1 ihr2
    cases b with
    | true =>
      have hany : (allObjectsDF c).any (fun o => objMatches o n) = true := ihc1.symm
      constructor
      · simp [modify_object_loop, hdc, allObjectsDFList, List.any_append, hany]
      · simp only [modify_object_loop, hdc, if_true, allObjectsDFList, updateFirstP_append,
          hany, if_pos, ihc2]
    | false =>
      have hany : (allObjectsDF c).any (fun o => objMatches o n) = false := ihc1.symm
      have hc2 : allObjectsDF c' = allObjectsDF c := by
        rw [ihc2, updateFirstP_of_not_any _ _ _ hany]
      constructor
      · simp [modify_object_loop, hdc, hdr, allObjectsDFList, List.any_append, hany, ihr1]
      · simp only [modify_object_loop, hdc, Bool.false_eq_true, if_false, hdr,
          allObjectsDFList, updateFirstP_append, hany, Bool.false_eq_true, if_false,
          hc2, ihr2]

end

mutual

/-- A `modify_object` call with both replacement fields blank writes
nothing: the tree comes back exactly as it went in. -/
theorem modify_object_blank_state (t : Node) (n : String) :
    (modify_object t n "" "").2 = t := by
  match t with
  | .mk nm objs cs =>
    rw [modify_object]
    cases h : (objs.getD []).find? (fun o => objMatches o n) with
    | some o =>
      match objs with
      | some l =>
        simp only [Option.getD] at h ⊢
        simp [applyModification_blank, replace_self, h]
      | none => simp [Option.getD] at h
    | none => simp [modify_object_loop_blank_state cs n]

theorem modify_object_loop_blank_state (cs : List Node) (n : String) :
    (modify_object_loop cs n "" "").2 = cs := by
  match cs with
  | [] => rfl
  | c :: rest =>
    rcases hdc : modify_object c n "" "" with ⟨b, c'⟩
    have hc : c' = c := by
      have := modify_object_blank_state c n
      rw [hdc] at this; exact this
    rcases hdr : modify_object_loop rest n "" "" with ⟨b', rest'⟩
    have hr : rest' = rest := by
      have := modify_object_loop_blank_state rest n
      rw [hdr] at this; exact this
    cases b <;> simp [modify_object_loop, hdc, hdr, hc, hr]

end

mutual

/-- `get_object_info` answers "not found" (the falsy `[]`) exactly when
`get_object` answers `None`; on every tree with a match it either raises
or reports the match. -/
theorem info_ok_nil_iff_get_object_none (t : Node) (n : String) :
    get_object_info t n = .ok [] ↔ get_object t n = none := by
  match t with
  | .mk nm objs cs =>
    rw [get_object_info, get_object]
    cases h : (objs.getD []).find? (fun o => objMatches o n) with
    | some o =>
      dsimp only
      have ho : o.name = some n := by
        have := List.find?_some h
        simpa [objMatches] using this
      rw [ho]
      constructor
      · intro hh
        cases hcat : o.category with
        | none => rw [hcat] at hh; simp [getKey] at hh
        | some cat =>
          cases hnm : nm with
          | none => rw [hcat, hnm] at hh; simp [getKey] at hh
          | some d => rw [hcat, hnm] at hh; simp [getKey] at hh
      · intro hh; simp at hh
    | none =>
      dsimp only
      have ih := info_ok_nil_iff_loop cs n
      cases hl : get_object_info_loop cs n with
      | error e =>
        have hget : ¬ get_object_loop cs n = none := fun hg => by
          have := ih.mpr hg
          rw [hl] at this
          exact Except.noConfusion this
        constructor
        · intro hh; exact absurd hh (by simp)
        · intro hh; exact absurd hh hget
      | ok r =>
        match r with
        | [] =>
          rw [hl] at ih
          dsimp only
          simpa using ih
        | x :: xs =>
          have hget : ¬ get_object_loop cs n = none := fun hg => by
            have := ih.mpr hg
            rw [hl] at this
            simp at this
          dsimp only
          cases hnm : nm with
          | none =>
            simp only [getKey]
            constructor
            · intro hh; exact absurd hh (by simp)
            · intro hh; exact absurd hh hget
          | some d =>
            simp only [getKey]
            constructor
            · intro hh; exact absurd hh (by simp)
            · intro hh; exact absurd hh hget

theorem info_ok_nil_iff_loop (cs : List Node) (n : String) :
    get_object_info_loop cs n = .ok [] ↔ get_object_loop cs n = none := by
  match cs with
  | [] => simp [get_object_info_loop, get_object_loop]
  | c :: rest =>
    rw [get_object_info_loop, get_object_loop]
    have ihc := info_ok_nil_iff_get_object_none c n
    have ihr := info_ok_nil_iff_loop rest n
    cases hc : get_object_info c n with
    | error e =>
      dsimp only
      have hne : ¬ get_object c n = none := fun hg => by
        have := ihc.mpr hg
        rw [hc] at this
        exact Except.noConfusion this
      cases hg : get_object c n with
      | none => exact absurd hg hne
      | some o =>
        dsimp only
        constructor
        · intro hh; exact absurd hh (by simp)
        · intro hh; exact absurd hh (by simp)
    | ok r =>
      match r with
      | [] =>
        have hg : get_object c n = none := ihc.mp hc
        rw [hg]
        dsimp only
        exact ihr
      | x :: xs =>
        have hne : ¬ get_object c n = none := fun hg => by
          have := ihc.mpr hg
          rw [hc] at this
          simp at this
        cases hg : get_object c n with
        | none => exact absurd hg hne
        | some o =>
          dsimp only
          constructor
          · intro hh; exact absurd hh (by simp)
          · intro hh; exact absurd hh (by simp)

end

mutual

/-- The object part of the spec-side path search is the first match of the
flattened traversal. -/
theorem findWithPathSpec_fst (t : Node) (n : String) :
    (findWithPathSpec t n).map Prod.fst
      = (allObjectsDF t).find? (fun o => objMatches o n) := by
  match t with
  | .mk nm objs cs =>
    rw [findWithPathSpec, allObjectsDF, List.find?_append]
    have hpred : ((objs.getD []).find? fun o => o.name == some n)
        = ((objs.getD []).find? fun o => objMatches o n) := rfl
    cases h : (objs.getD []).find? (fun o => objMatches o n) with
    | some o => rw [hpred, h]; simp [Option.or]
    | none =>
      rw [hpred, h]
      have ih := findWithPathSpec_list_fst cs n
      cases hl : findWithPathSpecList cs n with
      | none => rw [hl] at ih; simp only [Option.map] at ih; simp [Option.or, ← ih]
      | some r => rw [hl] at ih; simp only [Option.map] at ih; simp [Option.or, ← ih]

theorem findWithPathSpec_list_fst (cs : List Node) (n : String) :
    (findWithPathSpecList cs n).map Prod.fst
      = (allObjectsDFList cs).find? (fun o => objMatches o n) := by
  match cs with
  | [] => rfl
  | c :: rest =>
    rw [findWithPathSpecList, allObjectsDFList, List.find?_append]
    have ihc := findWithPathSpec_fst c n
    cases hc : findWithPathSpec c n with
    | none =>
      rw [hc] at ihc; simp only [Option.map] at ihc
      rw [← ihc]
      simp [Option.or, findWithPathSpec_list_fst rest n]
    | some r =>
      rw [hc] at ihc; simp only [Option.map] at ihc
      rw [← ihc]
      simp [Option.or]

end

mutual

/-- On a well-formed tree `get_object_info` never raises: it returns
exactly the rendering of the spec-side path search. -/
theorem info_wf_renders (t : Node) (n : String) (hwf : WFNode t = true) :
    get_object_info t n = .ok (renderInfo (findWithPathSpec t n)) := by
  match t with
  | .mk nm objs cs =>
    rw [WFNode, Bool.and_eq_true, Bool.and_eq_true] at hwf
    obtain ⟨⟨hnm, hobjs⟩, hcs⟩ := hwf
    obtain ⟨d, hd⟩ := Option.isSome_iff_exists.mp hnm
    rw [get_object_info, findWithPathSpec]
    have hpred : ((objs.getD []).find? fun o => o.name == some n)
        = ((objs.getD []).find? fun o => objMatches o n) := rfl
    rw [hpred]
    cases h : (objs.getD []).find? (fun o => objMatches o n) with
    | some o =>
      dsimp only
      have ho : o.name = some n := by
        have := List.find?_some h
        simpa [objMatches] using this
      have hmem : o ∈ objs.getD [] := List.mem_of_find?_eq_some h
      have hcat : o.category.isSome := by
        have h2 : o.name.isSome ∧ o.category.isSome := by
          simpa using List.all_eq_true.mp hobjs o hmem
        exact h2.2
      obtain ⟨cat, hc⟩ := Option.isSome_iff_exists.mp hcat
      rw [ho, hc, hd]
      simp [getKey, renderInfo, ho, hc, hd]
    | none =>
      dsimp only
      rw [info_wf_renders_loop cs n hcs]
      cases hl : findWithPathSpecList cs n with
      | none => simp [renderInfo]
      | some r =>
        match r with
        | (o, p) =>
          rw [hd]
          simp [renderInfo, getKey]

theorem info_wf_renders_loop (cs : List Node) (n : String) (hwf : WFList cs = true) :
    get_object_info_loop cs n = .ok (renderInfo (findWithPathSpecList cs n)) := by
  match cs with
  | [] => rfl
  | c :: rest =>
    rw [WFList, Bool.and_eq_true] at hwf
    obtain ⟨hc, hrest⟩ := hwf
    rw [get_object_info_loop, findWithPathSpecList, info_wf_renders c n hc]
    cases hs : findWithPathSpec c n with
    | none =>
      dsimp only [renderInfo]
      exact info_wf_renders_loop rest n hrest
    | some r =>
      match r with
      | (o, p) => simp [renderInfo]

end

mutual

/-- The statement-by-statement state-passing translation of `get_object`
computes the same answer and hands the tree back unchanged. -/
theorem get_object_st_eq (t : Node) (n : String) :
    get_object_st t n = (get_object t n, t) := by
  match t with
  | .mk nm objs cs =>
    rw [get_object_st, get_object]
    cases h : (objs.getD []).find? (fun o => objMatches o n) with
    | some o => rfl
    | none => rw [get_object_loop_st_eq cs n]

theorem get_object_loop_st_eq (cs : List Node) (n : String) :
    get_object_loop_st cs n = (get_object_loop cs n, cs) := by
  match cs with
  | [] => rfl
  | c :: rest =>
    rw [get_object_loop_st, get_object_loop, get_object_st_eq c n]
    cases h : get_object c n with
    | some o => rfl
    | none => rw [get_object_loop_st_eq rest n]

end

mutual

/-- The state-passing translation of `get_object_info` computes the same
answer and hands the tree back unchanged. -/
theorem get_object_info_st_eq (t : Node) (n : String) :
    get_object_info_st t n = (get_object_info t n, t) := by
  match t with
  | .mk nm objs cs =>
    rw [get_object_info_st, get_object_info]
    cases h : (objs.getD []).find? (fun o => objMatches o n) with
    | some o => rfl
    | none =>
      rw [get_object_info_loop_st_eq cs n]
      cases hl : get_object_info_loop cs n with
      | error e => rfl
      | ok r =>
        match r with
        | [] => rfl
        | x :: xs =>
          cases hnm : nm with
          | none => rfl
          | some d => rfl

theorem get_object_info_loop_st_eq (cs : List Node) (n : String) :
    get_object_info_loop_st cs n = (get_object_info_loop cs n, cs) := by
  match cs with
  | [] => rfl
  | c :: rest =>
    rw [get_object_info_loop_st, get_object_info_loop, get_object_info_st_eq c n]
    cases hc : get_object_info c n with
    | error e => rfl
    | ok r =>
      match r with
      | [] => rw [get_object_info_loop_st_eq rest n]
      | x :: xs => rfl

end

mutual

/-- The state-passing translation of `get_container_by_name` computes the
same answer and hands the tree back unchanged. -/
theorem get_container_by_name_st_eq (t : Node) (n : String) :
    get_container_by_name_st t n = (get_container_by_name t n, t) := by
  match t with
  | .mk nm objs cs =>
    rw [get_container_by_name_st, get_container_by_name]
    cases h : nm == some n with
    | true => simp
    | false =>
      rw [get_container_loop_st_eq cs n]
      simp [h]

theorem get_container_loop_st_eq (cs : List Node) (n : String) :
    get_container_by_name_loop_st cs n = (get_container_by_name_loop cs n, cs) := by
  match cs with
  | [] => rfl
  | c :: rest =>
    rw [get_container_by_name_loop_st, get_container_by_name_loop,
      get_container_by_name_st_eq c n]
    cases h : get_container_by_name c n with
    | some o => rfl
    | none => rw [get_container_loop_st_eq rest n]

end

mutual

/-- On any tree at all, `get_object_info` does exactly one of three
things: it reports "not found" (`[]`) with the spec-side search also
empty; it raises a `KeyError`; or it returns the matched object's name and
category followed by the ancestor names of the spec-side search, every one
of which was present. -/
theorem info_trichotomy (t : Node) (n : String) :
    (get_object_info t n = .ok [] ∧ findWithPathSpec t n = none)
    ∨ (∃ e, get_object_info t n = .error e)
    ∨ (∃ o names cat, findWithPathSpec t n = some (o, names.map some)
        ∧ o.name = some n ∧ o.category = some cat
        ∧ get_object_info t n = .ok (n :: cat :: names)) := by
  match t with
  | .mk nm objs cs =>
    rw [get_object_info, findWithPathSpec]
    have hpred : ((objs.getD []).find? fun o => o.name == some n)
        = ((objs.getD []).find? fun o => objMatches o n) := rfl
    rw [hpred]
    cases h : (objs.getD []).find? (fun o => objMatches o n) with
    | some o =>
      dsimp only
      have ho : o.name = some n := by
        have := List.find?_some h
        simpa [objMatches] using this
      rw [ho]
      cases hcat : o.category with
      | none =>
        refine Or.inr (Or.inl ⟨"KeyError: category", ?_⟩)
        simp [getKey]
      | some cat =>
        cases hnm : nm with
        | none =>
          refine Or.inr (Or.inl ⟨"KeyError: name", ?_⟩)
          simp [getKey]
        | some d =>
          refine Or.inr (Or.inr ⟨o, [d], cat, ?_, ho, hcat, ?_⟩)
          · simp
          · simp [getKey]
    | none =>
      dsimp only
      rcases info_trichotomy_loop cs n with ⟨h1, h2⟩ | ⟨e, he⟩
        | ⟨o, names, cat, hs, hon, hocat, hinfo⟩
      · rw [h1, h2]
        exact Or.inl ⟨rfl, rfl⟩
      · rw [he]
        exact Or.inr (Or.inl ⟨e, rfl⟩)
      · rw [hinfo, hs]
        dsimp only
        cases hnm : nm with
        | none => exact Or.inr (Or.inl ⟨"KeyError: name", by simp [getKey]⟩)
        | some d =>
          refine Or.inr (Or.inr ⟨o, names ++ [d], cat, ?_, hon, hocat, ?_⟩)
          · simp
          · simp [getKey]

theorem info_trichotomy_loop (cs : List Node) (n : String) :
    (get_object_info_loop cs n = .ok [] ∧ findWithPathSpecList cs n = none)
    ∨ (∃ e, get_object_info_loop cs n = .error e)
    ∨ (∃ o names cat, findWithPathSpecList cs n = some (o, names.map some)
        ∧ o.name = some n ∧ o.category = some cat
        ∧ get_object_info_loop cs n = .ok (n :: cat :: names)) := by
  match cs with
  | [] => exact Or.inl ⟨rfl, rfl⟩
  | c :: rest =>
    rw [get_object_info_loop, findWithPathSpecList]
    rcases info_trichotomy c n with ⟨h1, h2⟩ | ⟨e, he⟩
      | ⟨o, names, cat, hs, hon, hocat, hinfo⟩
    · rw [h1, h2]
      dsimp only
      exact info_trichotomy_loop rest n
    · rw [he]
      exact Or.inr (Or.inl ⟨e, rfl⟩)
    · rw [hinfo, hs]
      dsimp only
      exact Or.inr (Or.inr ⟨o, names, cat, rfl, hon, hocat, rfl⟩)

end

/-- Whenever `get_object_info` returns a non-empty result on any tree,
that result is the matched object's name and category followed by exactly
the ancestor names of the spec-side path search. -/
theorem path_correct_general (t : Node) (n : String) (r : List String)
    (hr : get_object_info t n = Except.ok r) (hne : r ≠ []) :
    ∃ o names cat, findWithPathSpec t n = some (o, names.map some)
      ∧ o.name = some n ∧ o.category = some cat ∧ r = n :: cat :: names := by
  rcases info_trichotomy t n with ⟨h1, h2⟩ | ⟨e, he⟩
    | ⟨o, names, cat, hs, hon, hocat, hinfo⟩
  · rw [hr] at h1
    simp at h1
    exact absurd h1 hne
  · rw [hr] at he
    exact Except.noConfusion he
  · rw [hr] at hinfo
    simp at hinfo
    exact ⟨o, names, cat, hs, hon, hocat, hinfo⟩

/-!  The claims. -/

/-- C1: every operation returns or affects exactly the first matching
object under depth-first, objects-before-containers, list-order traversal:
`get_object` and the spec-side path search both return the first match of
the flattened traversal, `delete_object` and `modify_object` succeed
exactly when that first match exists, `get_object_info` reports "not
found" exactly when `get_object` does; and in the concrete tree where
container A (listed first) and container B (listed second) both hold
"bulb", deleting "bulb" removes A's copy and leaves B's intact. -/
theorem first_match_wins :
    (∀ (t : Node) (n : String),
        get_object t n = (allObjectsDF t).find? (fun o => objMatches o n))
    ∧ (∀ (t : Node) (n : String),
        (findWithPathSpec t n).map Prod.fst
          = (allObjectsDF t).find? (fun o => objMatches o n))
    ∧ (∀ (t : Node) (n : String), (delete_object t n).1 = (get_object t n).isSome)
    ∧ (∀ (t : Node) (n nn nc : String),
        (modify_object t n nn nc).1 = (get_object t n).isSome)
    ∧ (∀ (t : Node) (n : String),
        (get_object_info t n = Except.ok [] ↔ get_object t n = none))
    ∧ delete_object rootAB "bulb"
        = (true, Node.mk (some "house") (some []) [Node.mk (some "A") (some []) [], contB]) := by
  refine ⟨get_object_eq_find, findWithPathSpec_fst, ?_, ?_,
    info_ok_nil_iff_get_object_none, rfl⟩
  · intro t n
    rw [(delete_object_flatten t n).1, get_object_eq_find, find?_isSome_eq_any]
  · intro t n nn nc
    rw [(modify_object_flatten t n nn nc).1, get_object_eq_find, find?_isSome_eq_any]

/-- C2: `get_object` returns `None` exactly when no object with the given
name exists in the tree's own objects list or in any descendant's. -/
theorem get_object_none_iff_absent (t : Node) (n : String) :
    get_object t n = none ↔ hasObjectNamed t n = false := by
  rw [get_object_eq_find, hasObjectNamed]
  have hpred : ((allObjectsDF t).any fun o => o.name == some n)
      = ((allObjectsDF t).any fun o => objMatches o n) := rfl
  rw [hpred, ← find?_isSome_eq_any]
  cases h : (allObjectsDF t).find? (fun o => objMatches o n) <;> simp

/-- C3: whenever `get_object_info` finds an object, the returned list is
the object's name and category followed by the names of all ancestor
containers from the direct parent up to and including the root, in
child-to-root order (the ancestor list of the spec-side path search); in
particular, for "hammer" at house > garage > shelf the path part reversed
is ["house", "garage", "shelf"]. -/
theorem get_object_info_path_correct :
    (∀ (t : Node) (n : String) (r : List String),
        get_object_info t n = Except.ok r → r ≠ [] →
        ∃ o names cat, findWithPathSpec t n = some (o, names.map some)
          ∧ o.name = some n ∧ o.category = some cat ∧ r = n :: cat :: names)
    ∧ get_object_info houseNode "hammer"
        = Except.ok ["hammer", "tool", "shelf", "garage", "house"]
    ∧ (((get_object_info houseNode "hammer").toOption.getD []).drop 2).reverse
        = ["house", "garage", "shelf"] :=
  ⟨path_correct_general, rfl, rfl⟩

/-- C3 witness: the general part applied to the concrete
house > garage > shelf tree. -/
theorem get_object_info_path_correct_witness :
    get_object_info houseNode "hammer"
        = Except.ok ["hammer", "tool", "shelf", "garage", "house"]
    ∧ (["hammer", "tool", "shelf", "garage", "house"] : List String) ≠ []
    ∧ ∃ o names cat, findWithPathSpec houseNode "hammer" = some (o, names.map some)
        ∧ o.name = some "hammer" ∧ o.category = some cat
        ∧ ["hammer", "tool", "shelf", "garage", "house"] = "hammer" :: cat :: names :=
  ⟨rfl, by simp,
    get_object_info_path_correct.1 houseNode "hammer" _ rfl (by simp)⟩

/-- C4: when an object matching the name exists, `modify_object` returns
true; the rewritten object keeps its name when the new name is blank and
takes the new one otherwise, likewise for the category; the tree's object
sequence changes only at the first match; and a call with both fields
blank is a no-op that still returns true. -/
theorem modify_object_partial_update (t : Node) (n nn nc : String) (o : Obj)
    (h : get_object t n = some o) :
    (modify_object t n nn nc).1 = true
    ∧ (applyModification o nn nc).name = (if nn = "" then o.name else some nn)
    ∧ (applyModification o nn nc).category = (if nc = "" then o.category else some nc)
    ∧ allObjectsDF (modify_object t n nn nc).2
        = updateFirstP (fun x => objMatches x n) (fun x => applyModification x nn nc)
            (allObjectsDF t)
    ∧ get_object (modify_object t n "" nc).2 n = some (applyModification o "" nc)
    ∧ modify_object t n "" "" = (true, t) := by
  have hfind : (allObjectsDF t).find? (fun x => objMatches x n) = some o := by
    rw [← get_object_eq_find]; exact h
  have hany : (allObjectsDF t).any (fun x => objMatches x n) = true := by
    rw [← find?_isSome_eq_any, hfind]; rfl
  refine ⟨?_, applyModification_name o nn nc, applyModification_category o nn nc,
    (modify_object_flatten t n nn nc).2, ?_, ?_⟩
  · rw [(modify_object_flatten t n nn nc).1, hany]
  · have ho : o.name = some n := by
      have := List.find?_some hfind
      simpa [objMatches] using this
    have hpf : objMatches (applyModification o "" nc) n = true := by
      simp [objMatches, applyModification_name, ho]
    rw [get_object_eq_find, (modify_object_flatten t n "" nc).2]
    exact find?_updateFirstP (fun x => applyModification x "" nc) hfind hpf
  · have h1 : (modify_object t n "" "").1 = true := by
      rw [(modify_object_flatten t n "" "").1, hany]
    have h2 := modify_object_blank_state t n
    rcases hm : modify_object t n "" "" with ⟨b, t'⟩
    rw [hm] at h1 h2
    simp only at h1 h2
    rw [h1, h2]

/-- C4 witness: the general theorem applied to the duplicate-bulb tree,
changing only the category to "lighting". -/
theorem modify_object_partial_update_witness :
    get_object rootAB "bulb" = some bulbA
    ∧ ((modify_object rootAB "bulb" "" "lighting").1 = true
       ∧ (applyModification bulbA "" "lighting").name
           = (if ("" : String) = "" then bulbA.name else some "")
       ∧ (applyModification bulbA "" "lighting").category
           = (if ("lighting" : String) = "" then bulbA.category else some "lighting")
       ∧ allObjectsDF (modify_object rootAB "bulb" "" "lighting").2
           = updateFirstP (fun x => objMatches x "bulb")
               (fun x => applyModification x "" "lighting") (allObjectsDF rootAB)
       ∧ get_object (modify_object rootAB "bulb" "" "lighting").2 "bulb"
           = some (applyModification bulbA "" "lighting")
       ∧ modify_object rootAB "bulb" "" "" = (true, rootAB)) :=
  ⟨rfl, modify_object_partial_update rootAB "bulb" "" "lighting" bulbA rfl⟩

/-- C5: `delete_object` reports whether a removal occurred, removes
exactly the first match of the flattened traversal (duplicates elsewhere
survive), and a second call with the same name succeeds exactly when at
least two matches existed in the original tree. -/
theorem delete_object_exactly_once (t : Node) (n : String) :
    (delete_object t n).1 = hasObjectNamed t n
    ∧ allObjectsDF (delete_object t n).2
        = (allObjectsDF t).eraseP (fun o => objMatches o n)
    ∧ ((delete_object (delete_object t n).2 n).1 = true
        ↔ 2 ≤ (allObjectsDF t).countP (fun o => objMatches o n)) := by
  obtain ⟨h1, h2⟩ := delete_object_flatten t n
  refine ⟨h1, h2, ?_⟩
  rw [(delete_object_flatten (delete_object t n).2 n).1, h2]
  exact any_eraseP_iff_two_le_countP _ _

/-- C6 counterexample: on a tree whose container node lacks a `"name"`
key, `get_object_info` raises `KeyError` (the object itself is perfectly
findable by `get_object`), so not every failure path of the core returns a
sentinel and a nameless node is not tolerated by every operation. -/
theorem get_object_info_keyerror_on_nameless_node :
    get_object_info namelessNode "bulb" = Except.error "KeyError: name"
    ∧ get_object namelessNode "bulb" = some ⟨some "bulb", some "light"⟩ :=
  ⟨rfl, rfl⟩

/-- C6 amended: `get_object`, `delete_object`, `modify_object` and
`get_container_by_name` are total sentinel-returning functions on every
tree (they read every key through a tolerant get), and `get_object_info`
never raises on well-formed trees; but on a tree where the matched
object's container or one of its ancestors lacks a `"name"`, or the
matched object lacks a `"category"`, `get_object_info` raises `KeyError`
instead of returning a sentinel. -/
theorem get_object_info_total_on_wf (t : Node) (n : String) (hwf : WFNode t = true) :
    ∃ r, get_object_info t n = Except.ok r :=
  ⟨renderInfo (findWithPathSpec t n), info_wf_renders t n hwf⟩

/-- C6 witness: the amended theorem applied to a concrete well-formed
tree. -/
theorem get_object_info_total_on_wf_witness :
    WFNode houseNode = true ∧ ∃ r, get_object_info houseNode "hammer" = Except.ok r :=
  ⟨by decide, get_object_info_total_on_wf houseNode "hammer" (by decide)⟩

/-- C7: the container `"box"` exists and is found, yet adding an object to
it leaves the tree unchanged and the object absent, because its raw node
has no `"objects"` key and `container.get("objects", []).append(...)`
appends to a discarded temporary; when the key is present the append does
land at the end of the list.  The claim (tolerant-read: the object is
present afterwards) describes the evident intent; the code drops it. -/
theorem add_object_loses_object_when_objects_key_missing :
    get_container_by_name boxNoObjects "box" = some boxNoObjects
    ∧ add_object boxNoObjects "box" ⟨some "bulb", some "light"⟩ = some boxNoObjects
    ∧ hasObjectNamed boxNoObjects "bulb" = false
    ∧ (∀ (nm : Option String) (l : List Obj) (cs : List Node) (o : Obj),
        appendObject (.mk nm (some l) cs) o = .mk nm (some (l ++ [o])) cs)
    ∧ (∀ (nm : Option String) (cs : List Node) (o : Obj),
        appendObject (.mk nm none cs) o = .mk nm none cs) :=
  ⟨rfl, rfl, rfl, fun _ _ _ _ => rfl, fun _ _ _ => rfl⟩

/-- C8: `load_json_file` returns the parsed content on success and the
empty mapping plus a printed diagnostic on file-not-found or JSON decode
failure; `save_json_file` returns silently on success and prints a
diagnostic on `OSError` or `TypeError`; both catch the named exceptions,
so nothing propagates to the caller. -/
theorem load_save_error_handling (file_name e : String) (content : Node) :
    load_json_file file_name (.success content) = (content, [])
    ∧ load_json_file file_name .fileNotFound
        = (Node.mk none none [],
           ["Errore: il file '" ++ file_name ++ "' non è stato trovato."])
    ∧ load_json_file file_name (.jsonDecodeError e)
        = (Node.mk none none [],
           ["Errore di decodifica JSON nel file '" ++ file_name ++ "': " ++ e])
    ∧ save_json_file .success = []
    ∧ save_json_file (.osError e) = ["Errore durante il salvataggio del file JSON: " ++ e]
    ∧ save_json_file (.typeError e)
        = ["Errore durante il salvataggio del file JSON: " ++ e] :=
  ⟨rfl, rfl, rfl, rfl, rfl, rfl⟩

/-- C9: `get_container_by_name` returns the first match of the flattened
depth-first traversal in which a node precedes its children and the root
is the first candidate, and returns `None` exactly when no container
anywhere matches. -/
theorem get_container_by_name_first_match (t : Node) (n : String) :
    get_container_by_name t n = (allContainersDF t).find? (fun d => d.name == some n)
    ∧ (allContainersDF t).head? = some t
    ∧ (get_container_by_name t n = none
        ↔ (allContainersDF t).all (fun d => !(d.name == some n)) = true) := by
  refine ⟨get_container_eq_find t n, ?_, ?_⟩
  · match t with
    | .mk nm objs cs => rfl
  · rw [get_container_eq_find, List.find?_eq_none, List.all_eq_true]
    constructor
    · intro h d hd
      simpa using h d hd
    · intro h d hd
      simpa using h d hd

/-- C10: the three search operations, translated with the tree state
threaded through every statement, hand the tree back exactly as received
while computing the same results as the plain translations: a search adds,
removes and modifies nothing. -/
theorem searches_leave_tree_unchanged (t : Node) (n : String) :
    (get_object_st t n).2 = t
    ∧ (get_object_info_st t n).2 = t
    ∧ (get_container_by_name_st t n).2 = t
    ∧ (get_object_st t n).1 = get_object t n
    ∧ (get_object_info_st t n).1 = get_object_info t n
    ∧ (get_container_by_name_st t n).1 = get_container_by_name t n := by
  rw [get_object_st_eq, get_object_info_st_eq, get_container_by_name_st_eq]
  exact ⟨rfl, rfl, rfl, rfl, rfl, rfl⟩

end Cataloger
